import Mathlib

/-!
Shallow embedding of the text-extraction pipeline of the pysmash-scrapper
repository (`src/scraper/utils/text_parsing.py`, `src/scraper/models.py`,
`src/scraper/scrapers/card_scraper.py`, `src/scraper/scrapers/base_scraper.py`),
together with theorems settling the specification claims about it.

Python strings are modelled as Lean `String`/`List Char` restricted to the
ASCII behaviour of the Python string primitives actually exercised by the
code (`str.split`, `str.replace`, `str.strip`, `str.lower`, `int(...)`,
`re.search` on the two concrete patterns appearing in the source).
-/

namespace PySmash

/-- Character class of Python's `\s` / `str.strip()` whitespace, restricted to
ASCII: space, tab, newline, carriage return, vertical tab, form feed. -/
def isPySpace (c : Char) : Bool :=
  c == ' ' || c == '\t' || c == '\n' || c == '\r' || c == '\x0b' || c == '\x0c'

/-- Numeric value of an ASCII digit character. -/
def digitVal (c : Char) : Nat := c.toNat - 48

/-- Fuel-indexed worker for `eraseSub`; the fuel only serves structural
termination and is irrelevant as long as it dominates the list length. -/
def eraseSubF (pat : List Char) : Nat → List Char → List Char
  | _, [] => []
  | 0, l => l
  | fuel + 1, c :: cs =>
    if pat ≠ [] ∧ pat.isPrefixOf (c :: cs) then
      eraseSubF pat fuel (List.drop pat.length (c :: cs))
    else
      c :: eraseSubF pat fuel cs

/-- Python `str.replace(pat, "")` for a non-empty pattern: erase every
non-overlapping occurrence of `pat`, scanning left to right and resuming
after each erased occurrence. -/
def eraseSub (pat : List Char) (l : List Char) : List Char :=
  eraseSubF pat l.length l

/-- Python `str.strip()` on a character list (ASCII whitespace). -/
def pyStripList (l : List Char) : List Char :=
  ((l.dropWhile isPySpace).reverse.dropWhile isPySpace).reverse

/-- Python `str.strip()`. -/
def pyStrip (s : String) : String := ⟨pyStripList s.data⟩

/-- Python `str.lower()` (ASCII case folding). -/
def pyLower (s : String) : String := ⟨s.data.map Char.toLower⟩

/-- Fuel-indexed worker for `splitSep`; the fuel only serves structural
termination and is irrelevant as long as it dominates the list length. -/
def splitSepF (sep : List Char) : Nat → List Char → List (List Char)
  | _, [] => [[]]
  | 0, l => [l]
  | fuel + 1, c :: cs =>
    if sep ≠ [] ∧ sep.isPrefixOf (c :: cs) then
      [] :: splitSepF sep fuel (List.drop sep.length (c :: cs))
    else
      match splitSepF sep fuel cs with
      | [] => [[c]]
      | p :: ps => (c :: p) :: ps

/-- Python `str.split(sep)` for a non-empty separator `sep`: greedy leftmost
non-overlapping splitting; always returns at least one (possibly empty)
segment. -/
def splitSep (sep : List Char) (l : List Char) : List (List Char) :=
  splitSepF sep l.length l

/-- Python `str.split(sep)` lifted to `String`. -/
def pySplit (s sep : String) : List String :=
  (splitSep sep.data s.data).map String.mk

/-- Python no-argument `str.split()`: split on runs of whitespace, discarding
empty segments.  `cur` is the reversed word currently being accumulated. -/
def splitWsAux (cur : List Char) : List Char → List (List Char)
  | [] => if cur.isEmpty then [] else [cur.reverse]
  | c :: cs =>
    if isPySpace c then
      if cur.isEmpty then splitWsAux [] cs else cur.reverse :: splitWsAux [] cs
    else
      splitWsAux (c :: cur) cs

/-- Python no-argument `str.split()` lifted to `String`. -/
def pySplitWs (s : String) : List String :=
  (splitWsAux [] s.data).map String.mk

/-- Loop of Python `int(...)` digit parsing, entered having just consumed a
digit with accumulated value `acc`: accepts further digits, with single
underscores allowed between digits (PEP 515). -/
def pyDigitsLoop : Nat → List Char → Option Nat
  | acc, [] => some acc
  | acc, [c] => if c.isDigit then some (acc * 10 + digitVal c) else none
  | acc, c :: d :: cs =>
    if c.isDigit then pyDigitsLoop (acc * 10 + digitVal c) (d :: cs)
    else if c == '_' then
      if d.isDigit then pyDigitsLoop (acc * 10 + digitVal d) cs else none
    else none

/-- Digit part of Python `int(...)`: one or more digits with optional single
underscore separators. -/
def pyDigitPart : List Char → Option Nat
  | [] => none
  | c :: cs => if c.isDigit then pyDigitsLoop (digitVal c) cs else none

/-- Python `int(s)` for a decimal string: optional surrounding whitespace,
optional sign, digit part; `none` models the `ValueError` branch. -/
def pyInt (s : String) : Option Int :=
  match pyStripList s.data with
  | [] => none
  | c :: cs =>
    if c == '+' then (pyDigitPart cs).map (fun n => (n : Int))
    else if c == '-' then (pyDigitPart cs).map (fun n => -(n : Int))
    else (pyDigitPart (c :: cs)).map (fun n => (n : Int))

/-! Regex search, specialised to the two concrete patterns of
`src/scraper/utils/text_parsing.py`.  `re.search` scans left to right and at
each position tries to match the pattern; for the shapes
`power\s+\d` and `power\s+(\d+)` the greedy quantifiers are deterministic
(whitespace and digits are disjoint character classes), giving the scanners
below. -/

/-- Character list of the literal regex token `power`. -/
def powerChars : List Char := ['p', 'o', 'w', 'e', 'r']

/-- Matching of `\s+\d` at the start of a character list. -/
def wsThenDigit (l : List Char) : Bool :=
  match l with
  | [] => false
  | c :: cs =>
    isPySpace c &&
      (match cs.dropWhile isPySpace with
       | [] => false
       | d :: _ => d.isDigit)

/-- Search of `re.search(r"power\s+\d", ·)` (used by `is_minion_card_text`):
true iff the pattern matches at some position. -/
def searchPowerDigit : List Char → Bool
  | [] => false
  | c :: cs =>
    (powerChars.isPrefixOf (c :: cs) && wsThenDigit (List.drop 5 (c :: cs))) ||
      searchPowerDigit cs

/-- Matching of `\s+(\d+)` at the start of a character list, returning the
captured maximal digit run. -/
def digitsAfterPower (l : List Char) : Option (List Char) :=
  match l with
  | [] => none
  | c :: cs =>
    if isPySpace c then
      match cs.dropWhile isPySpace with
      | [] => none
      | d :: ds => if d.isDigit then some (d :: ds.takeWhile Char.isDigit) else none
    else none

/-- Search of `re.search(r"power\s+(\d+)", ·)` (used by
`extract_power_from_text`): the capture group of the leftmost match. -/
def searchPowerGroup : List Char → Option (List Char)
  | [] => none
  | c :: cs =>
    if powerChars.isPrefixOf (c :: cs) then
      match digitsAfterPower (List.drop 5 (c :: cs)) with
      | some g => some g
      | none => searchPowerGroup cs
    else searchPowerGroup cs

/-! Embedding of `src/scraper/utils/text_parsing.py`. -/

/-- Embedding of `clean_card_text` (text_parsing.py lines 8-22): remove
`"\n"`, `"\t"`, `"\r"`, then the literal substring `" FAQ"`, then strip. -/
def clean_card_text (text : String) : String :=
  pyStrip ⟨eraseSub " FAQ".data
    (eraseSub ['\r'] (eraseSub ['\t'] (eraseSub ['\n'] text.data)))⟩

/-- Embedding of `extract_power_from_text` (text_parsing.py lines 25-41):
search `power\s+(\d+)` in the lowered text and convert the captured group
with `int(...)` (the `ValueError` branch yields `none`). -/
def extract_power_from_text (text : String) : Option Int :=
  match searchPowerGroup (pyLower text).data with
  | some g => pyInt (String.mk g)
  | none => none

/-- Embedding of `extract_card_description` (text_parsing.py lines 44-64). -/
def extract_card_description (text : String) (card_type : String) : Option String :=
  let parts := pySplit text " - "
  if card_type == "minion" && decide (3 ≤ parts.length) then
    some (clean_card_text (parts.getD 2 ""))
  else if card_type == "action" && decide (2 ≤ parts.length) then
    some (clean_card_text (parts.getD 1 ""))
  else
    none

/-- Embedding of `is_minion_card_text` (text_parsing.py lines 67-77):
`re.search(r"power\s+\d", text.lower())` matches and splitting on `" - "`
yields exactly 3 segments. -/
def is_minion_card_text (text : String) : Bool :=
  searchPowerDigit (pyLower text).data && ((pySplit text " - ").length == 3)

/-- Result record of `extract_base_components` (the Python function returns a
dict with exactly these keys). -/
structure BaseComponents where
  name : String
  breakpoint : Int
  first_place : Int
  second_place : Int
  third_place : Int
  description : String
deriving Repr, DecidableEq

/-- Embedding of `extract_base_components` (text_parsing.py lines 93-127):
split on `" - "`, require at least 4 segments, strip the `"breakpoint "` and
`"VPs: "` prefixes by literal replacement, require at least 3 VP tokens, and
convert the numeric fields with `int(...)`; any `ValueError` yields `none`. -/
def extract_base_components (text : String) : Option BaseComponents :=
  let parts := pySplit text " - "
  if parts.length < 4 then none
  else
    let name := pyStrip (parts.getD 0 "")
    let breakpointStr := pyStrip ⟨eraseSub "breakpoint ".data (parts.getD 1 "").data⟩
    let vpsText := pyStrip ⟨eraseSub "VPs: ".data (parts.getD 2 "").data⟩
    let description := pyStrip ⟨eraseSub "FAQ".data (parts.getD 3 "").data⟩
    let vps := pySplitWs vpsText
    if vps.length < 3 then none
    else
      match pyInt breakpointStr, pyInt (vps.getD 0 ""),
            pyInt (vps.getD 1 ""), pyInt (vps.getD 2 "") with
      | some b, some v1, some v2, some v3 =>
          some ⟨name, b, v1, v2, v3, description⟩
      | _, _, _, _ => none

/-! Embedding of `src/scraper/models.py`.  The pydantic models validate at
construction; a failed validation raises, which the scraper catches, so
construction is modelled as `Option`.  The `card_id` field (an MD5 hash of
the name, `BaseScraper.generate_id`) carries no information used by any
claim and is omitted from the records. -/

/-- Embedding of the `MinionCard` pydantic model fields (models.py 16-24). -/
structure MinionCard where
  name : String
  description : String
  faction_name : String
  faction_id : String
  power : Int
deriving Repr, DecidableEq

/-- Embedding of the `ActionCard` pydantic model fields (models.py 27-29). -/
structure ActionCard where
  name : String
  description : String
  faction_name : String
  faction_id : String
deriving Repr, DecidableEq

/-- Construction of a `MinionCard`: pydantic enforces `ge=0, le=20` on
`power` (plus the redundant non-negativity validator); a violation raises
`ValidationError`, modelled as `none`. -/
def mkMinionCard (name description faction_name faction_id : String)
    (power : Int) : Option MinionCard :=
  if 0 ≤ power ∧ power ≤ 20 then
    some ⟨name, description, faction_name, faction_id, power⟩
  else none

/-- Embedding of the `Base` pydantic model fields (models.py 48-61). -/
structure Base where
  base_name : String
  base_power : Int
  base_desc : String
  first_place : Int
  second_place : Int
  third_place : Int
deriving Repr, DecidableEq

/-- Construction of a `Base`: pydantic enforces `ge=1` on `base_power` and
`ge=0` on the three placement values (plus the non-negativity validator);
a violation raises `ValidationError`, modelled as `none`. -/
def mkBase (base_name : String) (base_power : Int) (base_desc : String)
    (first_place second_place third_place : Int) : Option Base :=
  if 1 ≤ base_power ∧ 0 ≤ first_place ∧ 0 ≤ second_place ∧ 0 ≤ third_place then
    some ⟨base_name, base_power, base_desc, first_place, second_place, third_place⟩
  else none

/-- Embedding of the `ScrapingResult` pydantic model (models.py 64-69). -/
structure ScrapingResult where
  success : Bool
  message : String
  items_processed : Nat
  errors : List String
deriving Repr, DecidableEq

/-! Embedding of `src/scraper/scrapers/card_scraper.py`. -/

/-- A parsed card: `_parse_card_from_text` returns either a `MinionCard` or
an `ActionCard` (the Python `Union`). -/
inductive ParsedCard where
  | minion (m : MinionCard)
  | action (a : ActionCard)
deriving Repr, DecidableEq

/-- Embedding of `CardScraper._parse_minion_card` (card_scraper.py 130-151):
extract the power (fail on `None`), extract and require a non-empty
description, then construct the `MinionCard` (validation failure raises,
which the caller turns into `None`). -/
def parse_minion_card (text card_name faction_name faction_id : String) :
    Option MinionCard :=
  match extract_power_from_text text with
  | none => none
  | some power =>
    match extract_card_description text "minion" with
    | none => none
    | some d =>
      if d = "" then none
      else mkMinionCard card_name d faction_name faction_id power

/-- Embedding of `CardScraper._parse_action_card` (card_scraper.py 153-168). -/
def parse_action_card (text card_name faction_name faction_id : String) :
    Option ActionCard :=
  match extract_card_description text "action" with
  | none => none
  | some d =>
    if d = "" then none
    else some ⟨card_name, d, faction_name, faction_id⟩

/-- Embedding of `CardScraper._parse_card_from_text` (card_scraper.py
100-128): dispatch on `is_minion_card_text`; any exception from the chosen
branch (including pydantic validation) is caught and becomes `None`. -/
def parse_card_from_text (text card_name faction_name faction_id : String) :
    Option ParsedCard :=
  if is_minion_card_text text then
    (parse_minion_card text card_name faction_name faction_id).map ParsedCard.minion
  else
    (parse_action_card text card_name faction_name faction_id).map ParsedCard.action

/-- A paragraph block of the faction page as the walker sees it: the id of
its first `span` child, if any (`none` when there is no span or no id
attribute), and the paragraph text. -/
structure Paragraph where
  spanId : Option String
  text : String
deriving Repr, DecidableEq

/-- One iteration of the walker loop in `CardScraper.scrape_faction_cards`
(card_scraper.py 55-78): paragraphs whose span id is missing or empty
(falsy) are skipped; a successful parse appends the card; a failed parse
(`None`) only logs a warning.  The `except` branch that appends to `errors`
can only be reached by an exception raised while reading the span id or the
paragraph text or escaping `_parse_card_from_text`; the latter catches all
exceptions, and the former are plain attribute reads, so in this model the
error list is never extended. -/
def processParagraph (faction_name faction_id : String)
    (acc : List ParsedCard × List String) (p : Paragraph) :
    List ParsedCard × List String :=
  match p.spanId with
  | none => acc
  | some id =>
    if id = "" then acc
    else
      match parse_card_from_text p.text id faction_name faction_id with
      | some c => (acc.1 ++ [c], acc.2)
      | none => acc

/-- The walker loop of `CardScraper.scrape_faction_cards` over the page's
paragraphs, producing the accumulated `(cards, errors)`. -/
def scrape_walk (faction_name faction_id : String) (ps : List Paragraph) :
    List ParsedCard × List String :=
  ps.foldl (processParagraph faction_name faction_id) ([], [])

/-- Result aggregation of `CardScraper.scrape_faction_cards` (card_scraper.py
80-93): success with the card count when at least one card was parsed,
otherwise `_create_error_result` (base_scraper.py 98-113) with
`items_processed = 0`; both carry the accumulated error list. -/
def aggregate_result (faction_name : String) (cards : List ParsedCard)
    (errors : List String) : ScrapingResult :=
  if cards.length ≠ 0 then
    { success := true
      message := "Successfully scraped " ++ toString cards.length ++
        " cards from " ++ faction_name
      items_processed := cards.length
      errors := errors }
  else
    { success := false
      message := "No cards found for faction " ++ faction_name
      items_processed := 0
      errors := errors }

/-- Embedding of `CardScraper.scrape_faction_cards` after a successful page
fetch: walk the paragraphs, then aggregate. -/
def scrape_faction_cards (faction_name faction_id : String)
    (ps : List Paragraph) : ScrapingResult :=
  let r := scrape_walk faction_name faction_id ps
  aggregate_result faction_name r.1 r.2

/-! Specification-side definitions, phrased from the specification's words,
to be compared with the code-derived definitions above. -/

/-- Specification wording of the minion pattern: the text contains the
pattern `"power"` followed by one or more whitespace characters and one or
more digits (the code's regex `power\s+\d` requires a single digit; the two
are equivalent as search predicates). -/
def PowerPatternSpec (l : List Char) : Prop :=
  ∃ pre ws ds post,
    l = pre ++ powerChars ++ ws ++ ds ++ post ∧
    ws ≠ [] ∧ (∀ c ∈ ws, isPySpace c = true) ∧
    ds ≠ [] ∧ (∀ c ∈ ds, c.isDigit = true)

/-- Specification wording of the text normalizer: delete every newline, tab
and carriage-return character, remove every occurrence of the literal
substring `" FAQ"`, and trim surrounding whitespace. -/
def normalizeSpec (text : String) : String :=
  pyStrip ⟨eraseSub " FAQ".data
    (text.data.filter (fun c => !(c == '\n' || c == '\t' || c == '\r')))⟩

/-- Outcome classifier: the parse produced an action card. -/
def isActionResult : Option ParsedCard → Bool
  | some (ParsedCard.action _) => true
  | _ => false

/-- A paragraph block without an identifying label: no span id, or a falsy
(empty) one. -/
def blockUnlabeled (p : Paragraph) : Prop :=
  p.spanId = none ∨ p.spanId = some ""

/-- A labeled paragraph block whose classification/extraction fails. -/
def blockFails (faction_name faction_id : String) (p : Paragraph) : Prop :=
  ∃ nm, p.spanId = some nm ∧ nm ≠ "" ∧
    parse_card_from_text p.text nm faction_name faction_id = none

/-- Field constraints of a parsed card record: a minion's power lies in the
pydantic range `[0, 20]`; action cards carry no numeric constraint. -/
def parsedCardOk : ParsedCard → Prop
  | ParsedCard.minion m => 0 ≤ m.power ∧ m.power ≤ 20
  | ParsedCard.action _ => True

/-! Helper lemmas. -/

theorem isPrefixOf_iff_append {l₁ l₂ : List Char} :
    l₁.isPrefixOf l₂ = true ↔ ∃ t, l₁ ++ t = l₂ := by
  induction l₁ generalizing l₂ with
  | nil => simp [List.isPrefixOf]
  | cons a as ih =>
    cases l₂ with
    | nil => simp [List.isPrefixOf]
    | cons b bs =>
      simp only [List.isPrefixOf, Bool.and_eq_true, beq_iff_eq, ih,
        List.cons_append, List.cons.injEq]
      constructor
      · rintro ⟨rfl, t, rfl⟩
        exact ⟨t, rfl, rfl⟩
      · rintro ⟨t, rfl, rfl⟩
        exact ⟨rfl, t, rfl⟩

theorem pySpace_not_digit {c : Char} (h : isPySpace c = true) :
    c.isDigit = false := by
  simp only [isPySpace, Bool.or_eq_true, beq_iff_eq] at h
  rcases h with ((((h | h) | h) | h) | h) | h <;> subst h <;> decide

theorem digit_not_pySpace {c : Char} (h : c.isDigit = true) :
    isPySpace c = false := by
  cases hs : isPySpace c with
  | false => rfl
  | true => rw [pySpace_not_digit hs] at h; exact absurd h (by decide)

theorem dropWhile_append_of_all {p : Char → Bool} :
    ∀ {l₁ : List Char} (l₂ : List Char), (∀ c ∈ l₁, p c = true) →
      List.dropWhile p (l₁ ++ l₂) = List.dropWhile p l₂ := by
  intro l₁
  induction l₁ with
  | nil => intro l₂ _; rfl
  | cons c cs ih =>
    intro l₂ h
    have hc : p c = true := h c (List.mem_cons_self c cs)
    simp only [List.cons_append, List.dropWhile_cons, hc, if_true]
    exact ih l₂ (fun x hx => h x (List.mem_cons_of_mem c hx))

theorem searchPowerDigit_iff (l : List Char) :
    searchPowerDigit l = true ↔ PowerPatternSpec l := by
  induction l with
  | nil =>
    constructor
    · intro h; exact absurd h (by simp [searchPowerDigit])
    · rintro ⟨pre, ws, ds, post, heq, hwne, -, -, -⟩
      have hlen := congrArg List.length heq
      simp only [powerChars, List.length_append, List.length_nil, List.length_cons] at hlen
      omega
  | cons c cs ih =>
    simp only [searchPowerDigit, Bool.or_eq_true, Bool.and_eq_true]
    constructor
    · rintro (⟨hp, hw⟩ | h)
      · obtain ⟨r, hr⟩ := isPrefixOf_iff_append.mp hp
        have hdrop : List.drop 5 (c :: cs) = r := by
          rw [← hr]; exact List.drop_left powerChars r
        rw [hdrop] at hw
        cases r with
        | nil => exact absurd hw (by simp [wsThenDigit])
        | cons w rest =>
          simp only [wsThenDigit, Bool.and_eq_true] at hw
          obtain ⟨hwsp, hd⟩ := hw
          cases hdw : rest.dropWhile isPySpace with
          | nil => rw [hdw] at hd; exact absurd hd (by simp)
          | cons d rest2 =>
            rw [hdw] at hd
            refine ⟨[], w :: rest.takeWhile isPySpace, [d], rest2, ?_, by simp, ?_, by simp, ?_⟩
            · have hrest : rest = rest.takeWhile isPySpace ++ (d :: rest2) := by
                conv_lhs => rw [← List.takeWhile_append_dropWhile (p := isPySpace) (l := rest)]
                rw [hdw]
              rw [← hr]
              conv_lhs => rw [hrest]
              simp
            · intro x hx
              rcases List.mem_cons.mp hx with rfl | hx
              · exact hwsp
              · exact List.mem_takeWhile_imp hx
            · intro x hx
              rw [List.mem_singleton] at hx; subst hx; exact hd
      · obtain ⟨pre, ws, ds, post, heq, h1, h2, h3, h4⟩ := ih.mp h
        exact ⟨c :: pre, ws, ds, post, by rw [heq]; simp, h1, h2, h3, h4⟩
    · rintro ⟨pre, ws, ds, post, heq, hwne, hws, hdne, hds⟩
      cases pre with
      | nil =>
        left
        simp only [List.nil_append] at heq
        have hdrop : List.drop 5 (powerChars ++ ws ++ ds ++ post) = ws ++ ds ++ post := by
          have h5 : (5 : Nat) = powerChars.length := rfl
          rw [List.append_assoc, List.append_assoc, h5, List.drop_left]
          simp [List.append_assoc]
        constructor
        · rw [heq]
          exact isPrefixOf_iff_append.mpr ⟨ws ++ ds ++ post, by simp [List.append_assoc]⟩
        · rw [heq, hdrop]
          cases ws with
          | nil => exact absurd rfl hwne
          | cons w ws' =>
            have hw : isPySpace w = true := hws w (List.mem_cons_self _ _)
            cases ds with
            | nil => exact absurd rfl hdne
            | cons d ds' =>
              have hd : d.isDigit = true := hds d (List.mem_cons_self _ _)
              have hws' : ∀ x ∈ ws', isPySpace x = true :=
                fun x hx => hws x (List.mem_cons_of_mem _ hx)
              simp only [List.cons_append, List.append_assoc, wsThenDigit, hw,
                Bool.true_and]
              rw [dropWhile_append_of_all (d :: (ds' ++ post)) hws']
              simp [List.dropWhile_cons, digit_not_pySpace hd, hd]
      | cons a pre' =>
        right
        apply ih.mpr
        simp only [List.cons_append, List.cons.injEq] at heq
        exact ⟨pre', ws, ds, post, heq.2, hwne, hws, hdne, hds⟩

theorem digitsAfterPower_isSome (l : List Char) :
    (digitsAfterPower l).isSome = wsThenDigit l := by
  cases l with
  | nil => rfl
  | cons c cs =>
    simp only [digitsAfterPower, wsThenDigit]
    cases hsp : isPySpace c
    · simp
    · cases hdw : cs.dropWhile isPySpace with
      | nil => simp
      | cons d ds => cases hd : d.isDigit <;> simp [hd]

theorem searchPowerGroup_isSome (l : List Char) :
    (searchPowerGroup l).isSome = searchPowerDigit l := by
  induction l with
  | nil => rfl
  | cons c cs ih =>
    have h5 := digitsAfterPower_isSome (List.drop 5 (c :: cs))
    simp only [searchPowerGroup, searchPowerDigit]
    cases hp : powerChars.isPrefixOf (c :: cs)
    · simpa using ih
    · rw [← h5]
      cases hg : digitsAfterPower (List.drop 5 (c :: cs)) with
      | some g => simp
      | none => simp [ih]

theorem digitsAfterPower_digits {l : List Char} {g : List Char}
    (h : digitsAfterPower l = some g) :
    g ≠ [] ∧ ∀ c ∈ g, c.isDigit = true := by
  cases l with
  | nil => exact absurd h (by simp [digitsAfterPower])
  | cons c cs =>
    simp only [digitsAfterPower] at h
    split at h
    · split at h
      · exact absurd h (by simp)
      · rename_i d ds hdw
        split at h
        · rename_i hd
          injection h with h
          subst h
          refine ⟨by simp, ?_⟩
          intro x hx
          rcases List.mem_cons.mp hx with rfl | hx
          · exact hd
          · exact List.mem_takeWhile_imp hx
        · exact absurd h (by simp)
    · exact absurd h (by simp)

theorem searchPowerGroup_digits :
    ∀ {l g : List Char}, searchPowerGroup l = some g →
      g ≠ [] ∧ ∀ c ∈ g, c.isDigit = true := by
  intro l
  induction l with
  | nil => intro g h; exact absurd h (by simp [searchPowerGroup])
  | cons c cs ih =>
    intro g h
    simp only [searchPowerGroup] at h
    split at h
    · split at h
      · rename_i g' hg'
        injection h with h
        subst h
        exact digitsAfterPower_digits hg'
      · exact ih h
    · exact ih h

theorem pyDigitsLoop_total :
    ∀ (l : List Char), (∀ c ∈ l, c.isDigit = true) →
      ∀ acc, ∃ n, pyDigitsLoop acc l = some n := by
  intro l
  induction l with
  | nil => exact fun _ acc => ⟨acc, rfl⟩
  | cons c cs ih =>
    intro h acc
    have hc : c.isDigit = true := h c (List.mem_cons_self c cs)
    cases cs with
    | nil => exact ⟨acc * 10 + digitVal c, by simp [pyDigitsLoop, hc]⟩
    | cons d cs' =>
      obtain ⟨n, hn⟩ :=
        ih (fun x hx => h x (List.mem_cons_of_mem c hx)) (acc * 10 + digitVal c)
      exact ⟨n, by simp only [pyDigitsLoop, hc, if_true]; exact hn⟩

theorem pyInt_of_digits {g : List Char} (hne : g ≠ [])
    (hdig : ∀ c ∈ g, c.isDigit = true) :
    ∃ n : Nat, pyInt (String.mk g) = some (n : Int) := by
  cases g with
  | nil => exact absurd rfl hne
  | cons d rest =>
    have hd : d.isDigit = true := hdig d (List.mem_cons_self _ _)
    have hstrip : pyStripList (String.mk (d :: rest)).data = d :: rest := by
      show pyStripList (d :: rest) = d :: rest
      unfold pyStripList
      have h1 : (d :: rest).dropWhile isPySpace = d :: rest := by
        simp [List.dropWhile_cons, digit_not_pySpace hd]
      rw [h1]
      cases hrev : (d :: rest).reverse with
      | nil => exact absurd hrev (by simp)
      | cons r rs =>
        have hr : r.isDigit = true := by
          have hmem : r ∈ (d :: rest).reverse := by
            rw [hrev]; exact List.mem_cons_self _ _
          exact hdig r (List.mem_reverse.mp hmem)
        simp only [List.dropWhile_cons, digit_not_pySpace hr, Bool.false_eq_true,
          if_false]
        rw [← hrev, List.reverse_reverse]
    have hplus : (d == '+') = false := by
      cases hdq : d == '+'
      · rfl
      · rw [beq_iff_eq] at hdq; subst hdq; exact absurd hd (by decide)
    have hminus : (d == '-') = false := by
      cases hdq : d == '-'
      · rfl
      · rw [beq_iff_eq] at hdq; subst hdq; exact absurd hd (by decide)
    obtain ⟨n, hn⟩ :=
      pyDigitsLoop_total rest (fun x hx => hdig x (List.mem_cons_of_mem _ hx))
        (digitVal d)
    refine ⟨n, ?_⟩
    simp only [pyInt, hstrip, hplus, hminus, Bool.false_eq_true, if_false,
      pyDigitPart, hd, if_true, hn]
    rfl

theorem eraseSubF_congr (pat : List Char) :
    ∀ (f1 f2 : Nat) (l : List Char), l.length ≤ f1 → l.length ≤ f2 →
      eraseSubF pat f1 l = eraseSubF pat f2 l := by
  intro f1
  induction f1 with
  | zero =>
    intro f2 l h1 _
    have hl : l = [] := List.eq_nil_of_length_eq_zero (Nat.le_zero.mp h1)
    subst hl
    cases f2 <;> rfl
  | succ n ih =>
    intro f2 l h1 h2
    cases l with
    | nil => cases f2 <;> rfl
    | cons c cs =>
      cases f2 with
      | zero => simp at h2
      | succ m =>
        simp only [List.length_cons] at h1 h2
        simp only [eraseSubF]
        by_cases hcond : pat ≠ [] ∧ pat.isPrefixOf (c :: cs) = true
        · rw [if_pos hcond, if_pos hcond]
          have hp : 1 ≤ pat.length := List.length_pos.mpr hcond.1
          apply ih
          · simp only [List.length_drop, List.length_cons]; omega
          · simp only [List.length_drop, List.length_cons]; omega
        · rw [if_neg hcond, if_neg hcond]
          exact congrArg (c :: ·) (ih m cs (by omega) (by omega))

theorem eraseSub_cons (pat : List Char) (c : Char) (cs : List Char) :
    eraseSub pat (c :: cs) =
      if pat ≠ [] ∧ pat.isPrefixOf (c :: cs) = true then
        eraseSub pat (List.drop pat.length (c :: cs))
      else c :: eraseSub pat cs := by
  show eraseSubF pat (c :: cs).length (c :: cs) = _
  simp only [List.length_cons, eraseSubF]
  by_cases hcond : pat ≠ [] ∧ pat.isPrefixOf (c :: cs) = true
  · rw [if_pos hcond, if_pos hcond]
    have hp : 1 ≤ pat.length := List.length_pos.mpr hcond.1
    apply eraseSubF_congr
    · simp only [List.length_drop, List.length_cons]; omega
    · exact Nat.le_refl _
  · rw [if_neg hcond, if_neg hcond]
    rfl

theorem eraseSub_singleton (a : Char) (l : List Char) :
    eraseSub [a] l = l.filter (fun x => !(x == a)) := by
  induction l with
  | nil => rfl
  | cons c cs ih =>
    rw [eraseSub_cons]
    by_cases hca : c = a
    · subst hca
      rw [if_pos ⟨by simp, by simp [List.isPrefixOf]⟩]
      simp only [List.length_cons, List.length_nil, Nat.zero_add, List.drop_one,
        List.tail_cons]
      rw [ih, List.filter_cons]
      simp
    · rw [if_neg ?hn]
      case hn =>
        rintro ⟨-, hpre⟩
        simp only [List.isPrefixOf, Bool.and_eq_true, beq_iff_eq] at hpre
        exact hca hpre.1.symm
      rw [ih, List.filter_cons]
      have : (c == a) = false := beq_eq_false_iff_ne.mpr hca
      simp [this]

theorem extract_action_desc (t : String) :
    extract_card_description t "action" =
      if 2 ≤ (pySplit t " - ").length then
        some (clean_card_text ((pySplit t " - ").getD 1 ""))
      else none := by
  unfold extract_card_description
  have h1 : (("action" : String) == "minion") = false := rfl
  have h2 : (("action" : String) == "action") = true := rfl
  simp only [h1, h2, Bool.false_and, Bool.true_and, Bool.false_eq_true, if_false,
    decide_eq_true_eq]

theorem extract_minion_desc (t : String) :
    extract_card_description t "minion" =
      if 3 ≤ (pySplit t " - ").length then
        some (clean_card_text ((pySplit t " - ").getD 2 ""))
      else none := by
  unfold extract_card_description
  have h1 : (("minion" : String) == "minion") = true := rfl
  have h2 : (("minion" : String) == "action") = false := rfl
  simp only [h1, h2, Bool.true_and, Bool.false_and, Bool.false_eq_true, if_false,
    decide_eq_true_eq]

theorem parse_action_eq (t n f i : String) :
    parse_action_card t n f i =
      if 2 ≤ (pySplit t " - ").length ∧
          clean_card_text ((pySplit t " - ").getD 1 "") ≠ "" then
        some ⟨n, clean_card_text ((pySplit t " - ").getD 1 ""), f, i⟩
      else none := by
  unfold parse_action_card
  rw [extract_action_desc]
  by_cases hlen : 2 ≤ (pySplit t " - ").length
  · rw [if_pos hlen]
    by_cases hdesc : clean_card_text ((pySplit t " - ").getD 1 "") = ""
    · rw [if_neg (fun hc => hc.2 hdesc)]
      show (if clean_card_text ((pySplit t " - ").getD 1 "") = "" then none
        else some _) = none
      rw [if_pos hdesc]
    · rw [if_pos ⟨hlen, hdesc⟩]
      show (if clean_card_text ((pySplit t " - ").getD 1 "") = "" then none
        else some _) = some _
      rw [if_neg hdesc]
  · rw [if_neg hlen, if_neg (fun hc => hlen hc.1)]

theorem action_result_iff (t n f i : String)
    (hmin : is_minion_card_text t = false) :
    isActionResult (parse_card_from_text t n f i) = true ↔
      (2 ≤ (pySplit t " - ").length ∧
        clean_card_text ((pySplit t " - ").getD 1 "") ≠ "") := by
  unfold parse_card_from_text
  rw [if_neg (by simp [hmin]), parse_action_eq]
  by_cases h : 2 ≤ (pySplit t " - ").length ∧
      clean_card_text ((pySplit t " - ").getD 1 "") ≠ ""
  · rw [if_pos h]
    exact iff_of_true rfl h
  · rw [if_neg h]
    exact iff_of_false (by simp [isActionResult]) h

theorem parse_none_of_not_action (t n f i : String)
    (hmin : is_minion_card_text t = false)
    (h2 : ¬ (2 ≤ (pySplit t " - ").length ∧
      clean_card_text ((pySplit t " - ").getD 1 "") ≠ "")) :
    parse_card_from_text t n f i = none := by
  unfold parse_card_from_text
  rw [if_neg (by simp [hmin]), parse_action_eq, if_neg h2]
  rfl

theorem parse_minion_ok {t n f i : String} {m : MinionCard}
    (h : parse_minion_card t n f i = some m) :
    0 ≤ m.power ∧ m.power ≤ 20 := by
  unfold parse_minion_card at h
  split at h
  · exact absurd h (by simp)
  · split at h
    · exact absurd h (by simp)
    · split at h
      · exact absurd h (by simp)
      · unfold mkMinionCard at h
        split at h
        · rename_i hb
          injection h with h
          subst h
          exact hb
        · exact absurd h (by simp)

theorem parse_card_ok {t n f i : String} {c : ParsedCard}
    (h : parse_card_from_text t n f i = some c) : parsedCardOk c := by
  unfold parse_card_from_text at h
  split at h
  · cases hm : parse_minion_card t n f i with
    | none => rw [hm] at h; exact absurd h (by simp)
    | some m =>
      rw [hm] at h
      have hc : ParsedCard.minion m = c := by
        have hs : (some (ParsedCard.minion m) : Option ParsedCard) = some c := h
        injection hs
      subst hc
      exact parse_minion_ok hm
  · cases ha : parse_action_card t n f i with
    | none => rw [ha] at h; exact absurd h (by simp)
    | some a =>
      rw [ha] at h
      have hc : ParsedCard.action a = c := by
        have hs : (some (ParsedCard.action a) : Option ParsedCard) = some c := h
        injection hs
      subst hc
      exact trivial

theorem processParagraph_snd (fn fid : String)
    (acc : List ParsedCard × List String) (p : Paragraph) :
    (processParagraph fn fid acc p).2 = acc.2 := by
  rcases p with ⟨sid, tx⟩
  cases sid with
  | none => rfl
  | some id =>
    simp only [processParagraph]
    by_cases hid : id = ""
    · rw [if_pos hid]
    · rw [if_neg hid]
      cases parse_card_from_text tx id fn fid <;> rfl

theorem foldl_walk_snd (fn fid : String) :
    ∀ (ps : List Paragraph) (acc : List ParsedCard × List String),
      (ps.foldl (processParagraph fn fid) acc).2 = acc.2 := by
  intro ps
  induction ps with
  | nil => intro acc; rfl
  | cons p ps ih => intro acc; rw [List.foldl_cons, ih, processParagraph_snd]

theorem walk_errors_nil (fn fid : String) (ps : List Paragraph) :
    (scrape_walk fn fid ps).2 = [] :=
  foldl_walk_snd fn fid ps ([], [])

theorem processParagraph_fst (fn fid : String)
    (acc : List ParsedCard × List String) (p : Paragraph) :
    (processParagraph fn fid acc p).1 =
      acc.1 ++ (processParagraph fn fid ([], []) p).1 := by
  rcases p with ⟨sid, tx⟩
  cases sid with
  | none => simp [processParagraph]
  | some id =>
    simp only [processParagraph]
    by_cases hid : id = ""
    · simp [hid]
    · rw [if_neg hid]
      cases parse_card_from_text tx id fn fid <;> simp [hid]

theorem foldl_walk_fst (fn fid : String) :
    ∀ (ps : List Paragraph) (acc : List ParsedCard × List String),
      (ps.foldl (processParagraph fn fid) acc).1 =
        acc.1 ++ (scrape_walk fn fid ps).1 := by
  intro ps
  induction ps with
  | nil => intro acc; simp [scrape_walk]
  | cons p ps ih =>
    intro acc
    rw [List.foldl_cons, ih]
    have hw : (scrape_walk fn fid (p :: ps)).1 =
        (processParagraph fn fid ([], []) p).1 ++ (scrape_walk fn fid ps).1 := by
      unfold scrape_walk
      rw [List.foldl_cons, ih]
      rfl
    rw [hw, processParagraph_fst, List.append_assoc]

theorem walk_append (fn fid : String) (ps1 ps2 : List Paragraph) :
    (scrape_walk fn fid (ps1 ++ ps2)).1 =
      (scrape_walk fn fid ps1).1 ++ (scrape_walk fn fid ps2).1 := by
  have hsplit : scrape_walk fn fid (ps1 ++ ps2) =
      List.foldl (processParagraph fn fid) (scrape_walk fn fid ps1) ps2 := by
    unfold scrape_walk
    exact List.foldl_append ..
  rw [hsplit]
  exact foldl_walk_fst fn fid ps2 (scrape_walk fn fid ps1)

theorem processParagraph_skip {fn fid : String} {p : Paragraph}
    (h : blockUnlabeled p ∨ blockFails fn fid p)
    (acc : List ParsedCard × List String) :
    processParagraph fn fid acc p = acc := by
  rcases p with ⟨sid, tx⟩
  rcases h with (hnone | hempty) | ⟨nm, hnm, hne, hparse⟩
  · have hs : sid = none := hnone
    subst hs; rfl
  · have hs : sid = some "" := hempty
    subst hs
    simp [processParagraph]
  · have hs : sid = some nm := hnm
    subst hs
    simp only [processParagraph]
    rw [if_neg hne]
    have hp : parse_card_from_text tx nm fn fid = none := hparse
    rw [hp]

theorem walk_cons_skip {fn fid : String} {p : Paragraph}
    (h : blockUnlabeled p ∨ blockFails fn fid p) (ps : List Paragraph) :
    scrape_walk fn fid (p :: ps) = scrape_walk fn fid ps := by
  unfold scrape_walk
  rw [List.foldl_cons, processParagraph_skip h]

theorem walk_all_unlabeled (fn fid : String) (ps : List Paragraph)
    (h : ∀ p ∈ ps, blockUnlabeled p) : scrape_walk fn fid ps = ([], []) := by
  induction ps with
  | nil => rfl
  | cons p ps ih =>
    rw [walk_cons_skip (Or.inl (h p (List.mem_cons_self _ _)))]
    exact ih (fun q hq => h q (List.mem_cons_of_mem _ hq))

theorem foldl_records_ok (fn fid : String) :
    ∀ (ps : List Paragraph) (acc : List ParsedCard × List String),
      (∀ c ∈ acc.1, parsedCardOk c) →
      ∀ c ∈ (ps.foldl (processParagraph fn fid) acc).1, parsedCardOk c := by
  intro ps
  induction ps with
  | nil => intro acc h; exact h
  | cons p ps ih =>
    intro acc h
    rw [List.foldl_cons]
    apply ih
    rcases p with ⟨sid, tx⟩
    cases sid with
    | none => exact h
    | some id =>
      simp only [processParagraph]
      by_cases hid : id = ""
      · rw [if_pos hid]; exact h
      · rw [if_neg hid]
        cases hp : parse_card_from_text tx id fn fid with
        | none => exact h
        | some c =>
          intro x hx
          rcases List.mem_append.mp hx with hx | hx
          · exact h x hx
          · rw [List.mem_singleton] at hx
            subst hx
            exact parse_card_ok hp

theorem walk_records_ok (fn fid : String) (ps : List Paragraph) :
    ∀ c ∈ (scrape_walk fn fid ps).1, parsedCardOk c :=
  foldl_records_ok fn fid ps ([], [])
    (fun c hc => absurd hc (List.not_mem_nil c))

/-! Claim theorems. -/

/-- C1 (counterexample): the text `"X - "` is not classified as a minion and
contains one `" - "` separator, yet the parse yields `none` rather than an
action — refuting the claim that a non-minion text is treated as an action
iff it contains at least one separator. -/
theorem claim_C1_counterexample :
    is_minion_card_text "X - " = false ∧
    2 ≤ (pySplit "X - " " - ").length ∧
    parse_card_from_text "X - " "X" "F" "i" = none ∧
    isActionResult (parse_card_from_text "X - " "X" "F" "i") = false :=
  ⟨rfl, by decide, rfl, rfl⟩

/-- C1 (amended): `is_minion_card_text t` holds iff `t` contains the
case-insensitive pattern `power` + whitespace + digits and splits on
`" - "` into exactly 3 segments; a non-minion text is parsed as an action
iff it splits into at least 2 segments and its cleaned second segment is
non-empty; otherwise parsing fails with `none`. -/
theorem claim_C1_amended (t n f i : String) :
    (is_minion_card_text t = true ↔
      (PowerPatternSpec (pyLower t).data ∧ (pySplit t " - ").length = 3)) ∧
    (is_minion_card_text t = false →
      (isActionResult (parse_card_from_text t n f i) = true ↔
        (2 ≤ (pySplit t " - ").length ∧
          clean_card_text ((pySplit t " - ").getD 1 "") ≠ ""))) ∧
    (is_minion_card_text t = false →
      ¬ (2 ≤ (pySplit t " - ").length ∧
          clean_card_text ((pySplit t " - ").getD 1 "") ≠ "") →
      parse_card_from_text t n f i = none) := by
  refine ⟨?_, fun hm => action_result_iff t n f i hm,
    fun hm hc => parse_none_of_not_action t n f i hm hc⟩
  unfold is_minion_card_text
  rw [Bool.and_eq_true]
  exact and_congr (searchPowerDigit_iff _) (by simp)

/-- C1 (witness): the amended claim instantiated on `"A - B"` (parsed as an
action) and `"AB"` (no separator, parse fails). -/
theorem claim_C1_witness :
    isActionResult (parse_card_from_text "A - B" "A" "F" "i") = true ∧
    parse_card_from_text "AB" "A" "F" "i" = none := by
  constructor
  · exact ((claim_C1_amended "A - B" "A" "F" "i").2.1 rfl).mpr ⟨by decide, by decide⟩
  · exact (claim_C1_amended "AB" "A" "F" "i").2.2 rfl (by decide)

/-- C2 (counterexample): on a page holding the malformed-power block
`"Bad Card - power X - Does something."` next to a valid minion block, the
walk yields an `ActionCard` record for the malformed block and an empty
error list — refuting the claim that such a block yields a
`PowerParseError` entry and no record. -/
theorem claim_C2_counterexample :
    scrape_walk "Robots" "fid"
        [⟨some "Bad Card", "Bad Card - power X - Does something."⟩,
         ⟨some "Robot Walker",
           "Robot Walker - power 3 - Move a minion to another base."⟩] =
      ([ParsedCard.action ⟨"Bad Card", "power X", "Robots", "fid"⟩,
        ParsedCard.minion
          ⟨"Robot Walker", "Move a minion to another base.", "Robots", "fid", 3⟩],
       []) := rfl

/-- C2 (amended): the page walk never aborts and never records an error
entry; its records decompose block-by-block, so a malformed block cannot
affect the extraction of the others; and a labeled block whose power token
is non-numeric (hence not minion-classified) with a well-formed two-or-more
segment shape is extracted as an action card, not skipped. -/
theorem claim_C2_amended :
    (∀ (fn fid : String) (ps : List Paragraph), (scrape_walk fn fid ps).2 = []) ∧
    (∀ (fn fid : String) (ps1 ps2 : List Paragraph),
        (scrape_walk fn fid (ps1 ++ ps2)).1 =
          (scrape_walk fn fid ps1).1 ++ (scrape_walk fn fid ps2).1) ∧
    (∀ (fn fid : String) (p : Paragraph) (nm : String),
        p.spanId = some nm → nm ≠ "" →
        is_minion_card_text p.text = false →
        2 ≤ (pySplit p.text " - ").length →
        clean_card_text ((pySplit p.text " - ").getD 1 "") ≠ "" →
        ∃ a, (scrape_walk fn fid [p]).1 = [ParsedCard.action a]) := by
  refine ⟨walk_errors_nil, walk_append, ?_⟩
  intro fn fid p nm hsid hne hmin hlen hdesc
  rcases p with ⟨sid, tx⟩
  have hs : sid = some nm := hsid
  subst hs
  have hact : isActionResult (parse_card_from_text tx nm fn fid) = true :=
    (action_result_iff tx nm fn fid hmin).mpr ⟨hlen, hdesc⟩
  cases hp : parse_card_from_text tx nm fn fid with
  | none => rw [hp] at hact; exact absurd hact (by simp [isActionResult])
  | some c =>
    cases c with
    | minion m => rw [hp] at hact; exact absurd hact (by simp [isActionResult])
    | action a =>
      refine ⟨a, ?_⟩
      show (processParagraph fn fid ([], []) ⟨some nm, tx⟩).1 = [ParsedCard.action a]
      simp only [processParagraph]
      rw [if_neg hne, hp]
      rfl

/-- C2 (witness): the amended claim instantiated on the malformed-power
block, which is extracted as an action card. -/
theorem claim_C2_witness :
    ∃ a, (scrape_walk "Robots" "fid"
        [⟨some "Bad Card", "Bad Card - power X - Does something."⟩]).1 =
      [ParsedCard.action a] :=
  claim_C2_amended.2.2 "Robots" "fid" _ "Bad Card" rfl (by decide) rfl
    (by decide) (by decide)

/-- C3 (counterexample): a page whose walk yields zero labeled card blocks
produces `success = false` (via `_create_error_result`), not the empty
successful result the claim states. -/
theorem claim_C3_counterexample :
    (scrape_faction_cards "Robots" "rid" []).success = false ∧
    (scrape_faction_cards "Robots" "rid" []).items_processed = 0 ∧
    (scrape_faction_cards "Robots" "rid" []).errors = ([] : List String) :=
  ⟨rfl, rfl, rfl⟩

/-- C3 (amended): a page with zero labeled card blocks returns a failed
result: `success = false`, the "No cards found" message,
`items_processed = 0` and an empty error list. -/
theorem claim_C3_amended (fn fid : String) (ps : List Paragraph)
    (h : ∀ p ∈ ps, blockUnlabeled p) :
    scrape_faction_cards fn fid ps =
      ⟨false, "No cards found for faction " ++ fn, 0, []⟩ := by
  unfold scrape_faction_cards
  rw [walk_all_unlabeled fn fid ps h]
  rfl

/-- C3 (witness): the amended claim instantiated on a page with one
unlabeled block. -/
theorem claim_C3_witness :
    scrape_faction_cards "Robots" "rid" [⟨none, "stray text"⟩] =
      ⟨false, "No cards found for faction Robots", 0, []⟩ :=
  claim_C3_amended "Robots" "rid" _
    (by intro p hp; rw [List.mem_singleton] at hp; subst hp; exact Or.inl rfl)

/-- C4 (counterexample): a labeled block that fails extraction (no `" - "`
separator) contributes no entry at all to the error list — refuting the
claim that each failing block contributes a `"<label>: <reason>"`
diagnostic. -/
theorem claim_C4_counterexample :
    parse_card_from_text "nosep" "Alpha" "F" "i" = none ∧
    scrape_walk "F" "i" [⟨some "Alpha", "nosep"⟩] = ([], []) := ⟨rfl, rfl⟩

/-- C4 (amended): a block that is unlabeled or fails
classification/extraction contributes neither a record nor an error entry
(the walk state is unchanged and processing continues with the remaining
blocks), and the error list of a walk is always empty. -/
theorem claim_C4_amended (fn fid : String) (p : Paragraph) (ps : List Paragraph)
    (h : blockUnlabeled p ∨ blockFails fn fid p) :
    scrape_walk fn fid (p :: ps) = scrape_walk fn fid ps ∧
    (scrape_walk fn fid (p :: ps)).2 = [] :=
  ⟨walk_cons_skip h ps, walk_errors_nil fn fid _⟩

/-- C4 (witness): the amended claim instantiated on a failing block followed
by a valid one. -/
theorem claim_C4_witness :
    scrape_walk "F" "i"
        [⟨some "Alpha", "nosep"⟩,
         ⟨some "Robot Walker",
           "Robot Walker - power 3 - Move a minion to another base."⟩] =
      scrape_walk "F" "i"
        [⟨some "Robot Walker",
           "Robot Walker - power 3 - Move a minion to another base."⟩] :=
  (claim_C4_amended "F" "i" ⟨some "Alpha", "nosep"⟩
    [⟨some "Robot Walker",
      "Robot Walker - power 3 - Move a minion to another base."⟩]
    (Or.inr ⟨"Alpha", rfl, by decide, rfl⟩)).1

/-- C5: the aggregated result declares success iff at least one record was
produced, its `items_processed` equals the record count, and its `errors`
field is exactly the accumulated diagnostic list in order. -/
theorem claim_C5 (fn : String) (cards : List ParsedCard) (errors : List String) :
    ((aggregate_result fn cards errors).success = true ↔ 1 ≤ cards.length) ∧
    (aggregate_result fn cards errors).items_processed = cards.length ∧
    (aggregate_result fn cards errors).errors = errors := by
  cases cards with
  | nil => exact ⟨by simp [aggregate_result], rfl, rfl⟩
  | cons c cs =>
    unfold aggregate_result
    rw [if_pos (by simp)]
    exact ⟨by simp, rfl, rfl⟩

/-- C5 (witness): the aggregation instantiated on one record and one error
string. -/
theorem claim_C5_witness :
    (aggregate_result "Robots" [ParsedCard.action ⟨"a", "d", "Robots", "rid"⟩]
        ["oops"]).success = true ∧
    (aggregate_result "Robots" [ParsedCard.action ⟨"a", "d", "Robots", "rid"⟩]
        ["oops"]).items_processed = 1 ∧
    (aggregate_result "Robots" [ParsedCard.action ⟨"a", "d", "Robots", "rid"⟩]
        ["oops"]).errors = ["oops"] := by
  have h := claim_C5 "Robots" [ParsedCard.action ⟨"a", "d", "Robots", "rid"⟩] ["oops"]
  exact ⟨h.1.mpr (by decide), h.2.1, h.2.2⟩

/-- C6: the base component extractor maps the nominal base line to the
expected record, and fails on every input whose `" - "` split yields fewer
than 4 segments. -/
theorem claim_C6 :
    extract_base_components
        "The School - breakpoint 15 - VPs: 4 2 1 - Students get +1 power." =
      some ⟨"The School", 15, 4, 2, 1, "Students get +1 power."⟩ ∧
    ∀ t : String, (pySplit t " - ").length < 4 → extract_base_components t = none := by
  refine ⟨rfl, ?_⟩
  intro t h
  unfold extract_base_components
  rw [if_pos h]

/-- C6 (witness): the short-line failure instantiated on a two-segment
line. -/
theorem claim_C6_witness : extract_base_components "Too - short" = none :=
  claim_C6.2 "Too - short" (by decide)

/-- C7 (counterexample): the block `"Big - power 25 - Smash."` is classified
as a minion, its record construction fails validation (power 25 > 20) and
no record is stored, but the walk's error list stays empty — refuting the
claim that the failure is reported in the operation's error list. -/
theorem claim_C7_counterexample :
    is_minion_card_text "Big - power 25 - Smash." = true ∧
    mkMinionCard "Big" "Smash." "F" "i" 25 = none ∧
    parse_card_from_text "Big - power 25 - Smash." "Big" "F" "i" = none ∧
    scrape_walk "F" "i" [⟨some "Big", "Big - power 25 - Smash."⟩] = ([], []) :=
  ⟨rfl, rfl, rfl, rfl⟩

/-- C7 (amended): every successfully constructed `MinionCard` satisfies
`0 ≤ power ≤ 20` and every `Base` satisfies its field constraints; a
violating construction (e.g. power `-1`) fails rather than clamping; every
record stored by the walk satisfies its constraints; but a validation
failure is only logged — the walk's error list is always empty, so the
failure is not reported there. -/
theorem claim_C7_amended :
    (∀ (n d f i : String) (p : Int) (m : MinionCard),
        mkMinionCard n d f i p = some m → 0 ≤ m.power ∧ m.power ≤ 20) ∧
    (∀ (nm : String) (bp : Int) (ds : String) (v1 v2 v3 : Int) (b : Base),
        mkBase nm bp ds v1 v2 v3 = some b →
          1 ≤ b.base_power ∧ 0 ≤ b.first_place ∧ 0 ≤ b.second_place ∧
            0 ≤ b.third_place) ∧
    (∀ (n d f i : String), mkMinionCard n d f i (-1) = none) ∧
    (∀ (fn fid : String) (ps : List Paragraph),
        (∀ c ∈ (scrape_walk fn fid ps).1, parsedCardOk c) ∧
        (scrape_walk fn fid ps).2 = []) := by
  refine ⟨?_, ?_, ?_,
    fun fn fid ps => ⟨walk_records_ok fn fid ps, walk_errors_nil fn fid ps⟩⟩
  · intro n d f i p m h
    unfold mkMinionCard at h
    split at h
    · rename_i hb; injection h with h; subst h; exact hb
    · exact absurd h (by simp)
  · intro nm bp ds v1 v2 v3 b h
    unfold mkBase at h
    split at h
    · rename_i hb; injection h with h; subst h; exact hb
    · exact absurd h (by simp)
  · intro n d f i
    unfold mkMinionCard
    rw [if_neg (by decide)]

/-- C7 (witness): the amended claim instantiated on a valid minion
construction, a valid base construction, and the rejected power `-1`. -/
theorem claim_C7_witness :
    mkMinionCard "Walker" "desc" "Robots" "rid" 3 =
      some ⟨"Walker", "desc", "Robots", "rid", 3⟩ ∧
    ((0 : Int) ≤ 3 ∧ (3 : Int) ≤ 20) ∧
    mkBase "School" 15 "d" 4 2 1 = some ⟨"School", 15, "d", 4, 2, 1⟩ ∧
    mkMinionCard "neg" "d" "F" "i" (-1) = none :=
  ⟨rfl, claim_C7_amended.1 "Walker" "desc" "Robots" "rid" 3 _ rfl, rfl,
    claim_C7_amended.2.2.1 "neg" "d" "F" "i"⟩

/-- C8: the nominal minion text is classified as a minion, its power
extracts to 3, its description extracts to the expected string, and the
full parse yields the corresponding `MinionCard`. -/
theorem claim_C8 :
    is_minion_card_text "Robot Walker - power 3 - Move a minion to another base." =
      true ∧
    extract_power_from_text
        "Robot Walker - power 3 - Move a minion to another base." = some 3 ∧
    extract_card_description
        "Robot Walker - power 3 - Move a minion to another base." "minion" =
      some "Move a minion to another base." ∧
    parse_card_from_text "Robot Walker - power 3 - Move a minion to another base."
        "Robot Walker" "Robots" "rid" =
      some (ParsedCard.minion
        ⟨"Robot Walker", "Move a minion to another base.", "Robots", "rid", 3⟩) :=
  ⟨rfl, rfl, rfl, rfl⟩

/-- C9: the text normalizer is the total function that deletes every
newline, tab and carriage-return character, removes every occurrence of
the literal substring `" FAQ"`, and trims surrounding whitespace. -/
theorem claim_C9 (t : String) : clean_card_text t = normalizeSpec t := by
  have hfilter : eraseSub ['\r'] (eraseSub ['\t'] (eraseSub ['\n'] t.data)) =
      t.data.filter (fun c => !(c == '\n' || c == '\t' || c == '\r')) := by
    rw [eraseSub_singleton, eraseSub_singleton, eraseSub_singleton,
      List.filter_filter, List.filter_filter]
    apply List.filter_congr
    intro x _
    cases hx1 : x == '\n' <;> cases hx2 : x == '\t' <;> cases hx3 : x == '\r' <;> rfl
  unfold clean_card_text normalizeSpec
  rw [hfilter]

/-- C9 (witness): the normalizer equality instantiated on a representative
string. -/
theorem claim_C9_witness :
    clean_card_text "  line one\n\tsecond FAQ\r " =
      normalizeSpec "  line one\n\tsecond FAQ\r " :=
  claim_C9 _

/-- C10: every text classified as a minion admits a power extraction: the
extractor returns `some n` with `n ≥ 0`, so the power-is-`None` branch of
the minion path is unreachable for classifier-approved inputs. -/
theorem claim_C10 (t : String) (h : is_minion_card_text t = true) :
    ∃ n : Int, extract_power_from_text t = some n ∧ 0 ≤ n := by
  unfold is_minion_card_text at h
  rw [Bool.and_eq_true] at h
  have hs : searchPowerDigit (pyLower t).data = true := h.1
  rw [← searchPowerGroup_isSome] at hs
  cases hg : searchPowerGroup (pyLower t).data with
  | none => rw [hg] at hs; exact absurd hs (by simp)
  | some g =>
    obtain ⟨hne, hdig⟩ := searchPowerGroup_digits hg
    obtain ⟨n, hn⟩ := pyInt_of_digits hne hdig
    refine ⟨(n : Int), ?_, Int.natCast_nonneg n⟩
    unfold extract_power_from_text
    rw [hg]
    exact hn

/-- C10 (witness): the power-extraction guarantee instantiated on a
three-segment minion text. -/
theorem claim_C10_witness :
    is_minion_card_text "a - power 7 - b" = true ∧
    ∃ n : Int, extract_power_from_text "a - power 7 - b" = some n ∧ 0 ≤ n :=
  ⟨rfl, claim_C10 "a - power 7 - b" rfl⟩

end PySmash
